import Mathlib

/-!
Verification of the tabular-data pipeline described for the
machine-readable-data notebook repository.

The repository is a Jupyter notebook whose cells call external libraries
(pandas, tabula-py, python-docx, lxml).  The only original algorithm in the
source is the DOCX table-extraction loop, which is embedded here directly.
The remaining operations (CSV read/write, the normalizer, the paginated
adapter, the validators, the JSON reader) are modelled from the
specification, which documents the exact adapter/normalizer/exporter
contracts the notebook demonstrates.

Record sets are modelled at the string level: a tabular file is a list of
rows, each row a list of string-valued cells, as in section 3 of the spec.
-/

namespace MRData

/-! ### CSV exporter, modelled from the spec

Section 4.3 of the spec: CSV export must quote any embedded line-terminator
characters inside a cell value (minimal quoting: a field is quoted exactly
when it contains the delimiter, the quote character, or a CR/LF character;
an embedded quote character is doubled).  This mirrors the QUOTE_MINIMAL
behaviour of the to_csv call in the notebook. -/

/-- Decides whether a CSV field must be quoted on export: it must when it
contains the delimiter, a double quote, or an embedded line terminator. -/
def needsQuoting (delim : Char) (f : String) : Bool :=
  f.data.any (fun c => c = delim || c = '"' || c = '\n' || c = '\r')

/-- Doubles every double-quote character of a field body, the CSV escape. -/
def escapeQuotes : List Char → List Char
  | [] => []
  | c :: cs => if c = '"' then '"' :: '"' :: escapeQuotes cs else c :: escapeQuotes cs

/-- Serializes one field: quoted (with doubled inner quotes) when needed,
verbatim otherwise. -/
def writeFieldChars (delim : Char) (f : String) : List Char :=
  if needsQuoting delim f then '"' :: (escapeQuotes f.data ++ ['"']) else f.data

/-- Serializes the remaining fields of a row, each preceded by the delimiter. -/
def writeRowSep (delim : Char) : List String → List Char
  | [] => []
  | f :: fs => delim :: (writeFieldChars delim f ++ writeRowSep delim fs)

/-- Serializes one row: its fields joined by the delimiter. -/
def writeRowChars (delim : Char) : List String → List Char
  | [] => []
  | f :: fs => writeFieldChars delim f ++ writeRowSep delim fs

/-- Serializes a record set: one line per row, each terminated by a newline. -/
def writeCSVChars (delim : Char) : List (List String) → List Char
  | [] => []
  | r :: rs => writeRowChars delim r ++ '\n' :: writeCSVChars delim rs

/-- Modelled from the spec: the CSV exporter (section 4.3).  Serializes a
record set to CSV text with minimal quoting and newline row terminators. -/
def writeCSV (delim : Char) (rows : List (List String)) : String :=
  String.mk (writeCSVChars delim rows)

/-! ### CSV reader, modelled from the spec

Section 4.1 of the spec: the tabular-text adapter reads a delimited file
into a record set.  The reader is the standard single-pass CSV state
machine: outside quotes the delimiter ends a field and a newline ends a
row; a field starting with a double quote is read in quoted mode, where a
doubled quote denotes a literal quote character. -/

/-- Parser mode of the CSV state machine: inside an unquoted field, inside
a quoted field, or just after a closing quote (where a second quote means
an escaped literal quote). -/
inductive CsvMode : Type
  | unquoted : CsvMode
  | quoted : CsvMode
  | afterQuote : CsvMode
deriving DecidableEq

/-- Single-pass CSV parsing state machine over the character list, carrying
the current mode, the characters of the current field, and the completed
fields of the current row. -/
def parseStep (delim : Char) : List Char → CsvMode → List Char → List String →
    List (List String)
  | [], m, field, row =>
    match m with
    | .unquoted => if field.isEmpty && row.isEmpty then [] else [row ++ [String.mk field]]
    | _ => [row ++ [String.mk field]]
  | c :: cs, m, field, row =>
    match m with
    | .unquoted =>
      if c = '"' && field.isEmpty then parseStep delim cs .quoted field row
      else if c = delim then parseStep delim cs .unquoted [] (row ++ [String.mk field])
      else if c = '\n' then (row ++ [String.mk field]) :: parseStep delim cs .unquoted [] []
      else parseStep delim cs .unquoted (field ++ [c]) row
    | .quoted =>
      if c = '"' then parseStep delim cs .afterQuote field row
      else parseStep delim cs .quoted (field ++ [c]) row
    | .afterQuote =>
      if c = '"' then parseStep delim cs .quoted (field ++ ['"']) row
      else if c = delim then parseStep delim cs .unquoted [] (row ++ [String.mk field])
      else if c = '\n' then (row ++ [String.mk field]) :: parseStep delim cs .unquoted [] []
      else parseStep delim cs .afterQuote (field ++ [c]) row

/-- Modelled from the spec: the tabular-text adapter read operation
(section 4.1), parsing delimited text into a record set. -/
def parseCSV (delim : Char) (s : String) : List (List String) :=
  parseStep delim s.data .unquoted [] []

/-! ### Normalizer, modelled from the spec

Section 4.2 of the spec: the normalizer drops data rows whose values match
the known header token set (the first row) and strips embedded carriage
return and line feed characters from cell values. -/

/-- Removes embedded carriage-return and line-feed characters from one cell
value. -/
def stripCRLF (f : String) : String :=
  String.mk (f.data.filter (fun c => !(c = '\r' || c = '\n')))

/-- Modelled from the spec: the normalizer (section 4.2).  The first row is
the header; later rows equal to the header are dropped, and every cell is
stripped of embedded CR/LF characters. -/
def normalize : List (List String) → List (List String)
  | [] => []
  | header :: rows =>
    (header.map stripCRLF) ::
      ((rows.filter (fun r => !(r = header : Bool))).map (List.map stripCRLF))

/-! ### Misparse shape: joining a row with a foreign delimiter -/

/-- Characters of the remaining cells of a row, each preceded by the given
separator character. -/
def joinSepChars (sep : Char) : List String → List Char
  | [] => []
  | f :: fs => sep :: (f.data ++ joinSepChars sep fs)

/-- Characters of a row whose cells are joined by the given separator, the
physical line a foreign-delimiter reader sees as one single field. -/
def joinChars (sep : Char) : List String → List Char
  | [] => []
  | f :: fs => f.data ++ joinSepChars sep fs

/-- Joins the cells of a row into the single string a reader configured
with the wrong delimiter folds the whole line into. -/
def joinRow (sep : Char) (r : List String) : String :=
  String.mk (joinChars sep r)

/-! ### Paginated (PDF-like) adapter, modelled from the spec

Section 4.1 of the spec: per-page scope, the default, yields one record set
per page and mis-classifies continuation-page data rows as headers.  A page
is the list of table rows physically laid out on it; the logical table is
the concatenation of all pages, whose first row is the true header. -/

/-- Record set produced by an adapter: a header naming the columns and the
data rows. -/
structure RecordSet : Type where
  header : List String
  rows : List (List String)
deriving DecidableEq

/-- Modelled from the spec: the paginated adapter without whole-document
scope (section 4.1).  Each page becomes its own record set whose header is
that page's first physical row. -/
def readPerPage (pages : List (List (List String))) : List RecordSet :=
  pages.map (fun pg => ⟨pg.headD [], pg.tail⟩)

/-- True header of the multi-page logical table: the first row of the first
page. -/
def trueHeader (pages : List (List (List String))) : List String :=
  ((pages.headD []).headD [])

/-- Data rows of the multi-page logical table: every physical row except
the true header. -/
def trueDataRows (pages : List (List (List String))) : List (List String) :=
  pages.flatten.tail

/-! ### Validators, modelled from the spec

Section 4.4 of the spec: validate takes a document and a schema descriptor
and returns a boolean verdict.  A schema descriptor lists the element tags
the document is required to contain; a document conforms when every
required element is present.  The notebook also demonstrates the
internal-DTD variant, where the parser itself validates and, per the
notebook, returns the parsed tree on success and raises a parse error
otherwise. -/

/-- Schema descriptor: the set of element tags a conforming document must
contain (an XSD or DTD used as an opaque validation input). -/
structure SchemaDescriptor : Type where
  required : List String
deriving DecidableEq

/-- Document to validate: the element tags present in it. -/
structure XmlDocument : Type where
  elements : List String
deriving DecidableEq

/-- Conformance of a document to a schema descriptor: every required
element occurs in the document. -/
def conforms (doc : XmlDocument) (schema : SchemaDescriptor) : Bool :=
  schema.required.all (fun t => doc.elements.contains t)

/-- Modelled from the spec: validate(document, schema_descriptor) returns a
boolean verdict (section 4.4). -/
def validate (doc : XmlDocument) (schema : SchemaDescriptor) : Bool :=
  conforms doc schema

/-- Document carrying its own embedded (internal) DTD. -/
structure XmlDocumentWithDTD : Type where
  dtd : SchemaDescriptor
  doc : XmlDocument
deriving DecidableEq

/-- Modelled from the spec: the internal-DTD validating parse demonstrated
in the notebook.  On a conforming document the parse succeeds and returns
the document tree; on a non-conforming document the parser raises an
error. -/
def parseWithInternalDTD (d : XmlDocumentWithDTD) : Except String XmlDocument :=
  if conforms d.doc d.dtd then Except.ok d.doc
  else Except.error "DTD validation failed"

/-! ### DOCX table extraction, embedded from the source

The notebook's extraction loop: the cells of row 0 become the keys; every
later row is zipped against the keys into one record (dict(zip(keys,
text))), and the records are collected in order. -/

/-- Embedding of the DOCX table-extraction loop of the notebook: the first
row gives the keys and each subsequent row is zipped with the keys into a
record. -/
def extractTable : List (List String) → List (List (String × String))
  | [] => []
  | keys :: rest => rest.map (fun row => keys.zip row)

/-! ### JSON records reader, modelled from the spec

Section 4.1 of the spec: orient records reads a JSON array of flat objects,
one per row; the record set has one record per object and its column set is
the union of the keys across all objects. -/

/-- Flat JSON object: an ordered mapping from keys to scalar values. -/
abbrev JsonObject : Type := List (String × String)

/-- Record set produced by the JSON reader: the union of the keys as
columns and one record per input object. -/
structure JsonRecordSet : Type where
  columns : List String
  records : List JsonObject
deriving DecidableEq

/-- Modelled from the spec: reading a JSON array of flat objects with
orient records (section 4.1).  Every object becomes one record; the column
set is the union of the keys across all objects. -/
def readJsonRecords (objs : List JsonObject) : JsonRecordSet :=
  ⟨(objs.flatMap (fun o => o.map Prod.fst)).dedup, objs⟩

/-! ### Headerless tabular read, modelled from the spec

Section 4.1 of the spec: with has_header false, columns are labeled by
zero-based position and the first physical row is kept as data. -/

/-- Record set of a headerless read: positional integer column labels and
the data rows. -/
structure PositionalRecordSet : Type where
  labels : List Nat
  rows : List (List String)
deriving DecidableEq

/-- Modelled from the spec: reading a tabular file with has_header false
(section 4.1).  Columns are labeled 0..N-1 by position and every physical
row, the first included, is a data row. -/
def readNoHeader (delim : Char) (text : String) : PositionalRecordSet :=
  let rows := parseCSV delim text
  ⟨List.range ((rows.headD []).length), rows⟩

/-- Well-formedness of a record set for the CSV round trip (section 8 of
the spec): nonempty, rows nonempty, no cell holding an embedded control
character, and no data row duplicating the header. -/
def wellFormedRecordSet (rs : List (List String)) : Prop :=
  rs ≠ [] ∧ (∀ r ∈ rs, r ≠ []) ∧
    (∀ r ∈ rs, ∀ f ∈ r, ∀ c ∈ f.data, c ≠ '\r' ∧ c ≠ '\n') ∧
    (∀ r ∈ rs.tail, r ≠ rs.headD [])

instance (rs : List (List String)) : Decidable (wellFormedRecordSet rs) := by
  unfold wellFormedRecordSet; infer_instance

/-! ## Theorems -/

example : parseCSV ',' "a,b\nc,d\n" = [["a", "b"], ["c", "d"]] := by decide
example : parseCSV ',' "a,\"x\ny\",b\n" = [["a", "x\ny", "b"]] := by decide
example : parseCSV ',' (writeCSV ',' [["a", "x\ny"], ["q\"t", ""]]) =
    [["a", "x\ny"], ["q\"t", ""]] := by decide
example : parseCSV ',' (writeCSV ';' [["a", "b"], ["c", "d"]]) = [["a;b"], ["c;d"]] := by
  decide

/-! ### Round-trip lemmas for the CSV reader and writer -/

/-- Running the parser over characters that are neither a quote, the
delimiter, nor a newline just accumulates them into the current field. -/
theorem parseStep_run_unquoted (delim : Char) (l : List Char) :
    ∀ (rest : List Char) (field : List Char) (row : List String),
      (∀ c ∈ l, c ≠ '"' ∧ c ≠ delim ∧ c ≠ '\n') →
      parseStep delim (l ++ rest) .unquoted field row =
        parseStep delim rest .unquoted (field ++ l) row := by
  induction l with
  | nil => intro rest field row _; simp
  | cons c cs ih =>
    intro rest field row h
    have hc := h c (by simp)
    have hrest : ∀ x ∈ cs, x ≠ '"' ∧ x ≠ delim ∧ x ≠ '\n' := fun x hx => h x (by simp [hx])
    rw [List.cons_append]
    simp only [parseStep, hc.1, hc.2.1, hc.2.2, decide_False, Bool.false_and,
      Bool.false_eq_true, if_false, if_neg, List.append_eq]
    rw [ih rest (field ++ [c]) row hrest]
    simp

/-- Running the parser in quoted mode over an escaped field body followed by
the closing quote accumulates the unescaped body and ends in afterQuote
mode. -/
theorem parseStep_run_quoted (delim : Char) (l : List Char) :
    ∀ (rest : List Char) (field : List Char) (row : List String),
      parseStep delim (escapeQuotes l ++ '"' :: rest) .quoted field row =
        parseStep delim rest .afterQuote (field ++ l) row := by
  induction l with
  | nil => intro rest field row; simp [escapeQuotes, parseStep]
  | cons c cs ih =>
    intro rest field row
    by_cases hc : c = '"'
    · subst hc
      simp only [escapeQuotes, if_pos rfl, List.cons_append, parseStep, decide_True,
        if_pos, List.append_eq]
      rw [ih rest (field ++ ['"']) row]
      simp
    · simp only [escapeQuotes, if_neg hc, List.cons_append, parseStep, hc, decide_False,
        Bool.false_eq_true, if_false, if_neg, List.append_eq]
      rw [ih rest (field ++ [c]) row]
      simp

/-- Structure eta for strings: rebuilding a string from its character data
gives the same string. -/
theorem String.mk_data (s : String) : String.mk s.data = s := rfl

/-- Characters of a field that needs no quoting are neither quotes, the
delimiter, nor newlines. -/
theorem notNeedsQuoting_clean (delim : Char) (f : String)
    (hneed : ¬ needsQuoting delim f = true) :
    ∀ c ∈ f.data, c ≠ '"' ∧ c ≠ delim ∧ c ≠ '\n' := by
  intro c hc
  simp only [needsQuoting, List.any_eq_true, Bool.or_eq_true, decide_eq_true_eq,
    not_exists, not_or] at hneed
  push_neg at hneed
  have h4 := hneed c hc
  refine ⟨?_, ?_, ?_⟩ <;> tauto

/-- Consuming one serialized field followed by the delimiter completes that
field and returns to unquoted mode on an empty field. -/
theorem parseStep_field_delim (delim : Char) (f : String) (rest : List Char)
    (row : List String) (hq : delim ≠ '"') :
    parseStep delim (writeFieldChars delim f ++ delim :: rest) .unquoted [] row =
      parseStep delim rest .unquoted [] (row ++ [f]) := by
  have hqd : ('"' : Char) ≠ delim := fun h => hq h.symm
  by_cases hneed : needsQuoting delim f = true
  · simp only [writeFieldChars, if_pos hneed, List.cons_append, List.append_assoc,
      List.singleton_append]
    simp only [parseStep, decide_True, List.isEmpty_nil, Bool.and_self, if_pos,
      List.nil_append]
    rw [parseStep_run_quoted delim f.data (delim :: rest) [] row]
    simp only [List.nil_append, parseStep, hq, hqd, decide_False, Bool.false_eq_true,
      if_false, if_neg, decide_True, if_pos, String.mk_data]
  · simp only [writeFieldChars, if_neg hneed]
    rw [parseStep_run_unquoted delim f.data (delim :: rest) [] row
      (notNeedsQuoting_clean delim f hneed)]
    simp only [List.nil_append, parseStep, hq, hqd, decide_False, Bool.false_and,
      Bool.false_eq_true, if_false, if_neg, decide_True, if_pos, String.mk_data]

/-- Consuming one serialized field followed by a newline completes both the
field and the current row. -/
theorem parseStep_field_newline (delim : Char) (f : String) (rest : List Char)
    (row : List String) (hn : delim ≠ '\n') :
    parseStep delim (writeFieldChars delim f ++ '\n' :: rest) .unquoted [] row =
      (row ++ [f]) :: parseStep delim rest .unquoted [] [] := by
  have hnq : ('\n' : Char) ≠ '"' := by decide
  have hnd : ('\n' : Char) ≠ delim := fun h => hn h.symm
  by_cases hneed : needsQuoting delim f = true
  · simp only [writeFieldChars, if_pos hneed, List.cons_append, List.append_assoc,
      List.singleton_append]
    simp only [parseStep, decide_True, List.isEmpty_nil, Bool.and_self, if_pos,
      List.nil_append]
    rw [parseStep_run_quoted delim f.data ('\n' :: rest) [] row]
    simp only [List.nil_append, parseStep, hnq, hnd, decide_False, Bool.false_eq_true,
      if_false, if_neg, decide_True, if_pos, String.mk_data]
  · simp only [writeFieldChars, if_neg hneed]
    rw [parseStep_run_unquoted delim f.data ('\n' :: rest) [] row
      (notNeedsQuoting_clean delim f hneed)]
    simp only [List.nil_append, parseStep, hnq, hnd, decide_False, Bool.false_and,
      Bool.false_eq_true, if_false, if_neg, decide_True, if_pos, String.mk_data]

/-- Consuming one serialized row followed by a newline appends exactly that
row to the output. -/
theorem parseStep_row (delim : Char) (fs : List String) :
    ∀ (f : String) (rest : List Char) (row : List String),
      delim ≠ '"' → delim ≠ '\n' →
      parseStep delim ((writeFieldChars delim f ++ writeRowSep delim fs) ++ '\n' :: rest)
          .unquoted [] row =
        (row ++ f :: fs) :: parseStep delim rest .unquoted [] [] := by
  induction fs with
  | nil =>
    intro f rest row hq hn
    simp only [writeRowSep, List.append_nil]
    exact parseStep_field_newline delim f rest row hn
  | cons g gs ih =>
    intro f rest row hq hn
    rw [show (writeFieldChars delim f ++ writeRowSep delim (g :: gs)) ++ '\n' :: rest =
      writeFieldChars delim f ++
        delim :: ((writeFieldChars delim g ++ writeRowSep delim gs) ++ '\n' :: rest) by
        simp [writeRowSep]]
    rw [parseStep_field_delim delim f _ row hq]
    rw [ih g rest (row ++ [f]) hq hn]
    simp

/-- Round trip of the modelled CSV pipeline: parsing the exported text of a
record set whose rows are nonempty recovers the record set exactly. -/
theorem parseCSV_writeCSV (delim : Char) (rows : List (List String))
    (hq : delim ≠ '"') (hn : delim ≠ '\n') (hrows : ∀ r ∈ rows, r ≠ []) :
    parseCSV delim (writeCSV delim rows) = rows := by
  show parseStep delim (writeCSVChars delim rows) .unquoted [] [] = rows
  induction rows with
  | nil => simp [writeCSVChars, parseStep]
  | cons r rs ih =>
    obtain ⟨f, fs, rfl⟩ : ∃ f fs, r = f :: fs := by
      cases r with
      | nil => exact absurd rfl (hrows [] (by simp))
      | cons f fs => exact ⟨f, fs, rfl⟩
    simp only [writeCSVChars, writeRowChars]
    rw [parseStep_row delim fs f (writeCSVChars delim rs) [] hq hn]
    rw [ih (fun x hx => hrows x (by simp [hx]))]
    simp

/-! ### Normalizer lemmas -/

/-- Stripping CR/LF from a cell that contains none leaves it unchanged. -/
theorem stripCRLF_eq_self (f : String) (h : ∀ c ∈ f.data, c ≠ '\r' ∧ c ≠ '\n') :
    stripCRLF f = f := by
  unfold stripCRLF
  have hf : f.data.filter (fun c => !(c = '\r' || c = '\n')) = f.data :=
    List.filter_eq_self.mpr (fun c hc => by simp [(h c hc).1, (h c hc).2])
  rw [hf]

/-- Normalizing an already well-formed record set leaves it unchanged. -/
theorem normalize_eq_self (rs : List (List String)) (h : wellFormedRecordSet rs) :
    normalize rs = rs := by
  obtain ⟨hne, _hrow, hcell, hdup⟩ := h
  obtain ⟨header, rows, rfl⟩ : ∃ x xs, rs = x :: xs := by
    cases rs with
    | nil => exact absurd rfl hne
    | cons x xs => exact ⟨x, xs, rfl⟩
  have hid : ∀ r ∈ header :: rows, r.map stripCRLF = r := by
    intro r hr
    have : ∀ f ∈ r, stripCRLF f = f := fun f hf =>
      stripCRLF_eq_self f (fun c hc => hcell r hr f hf c hc)
    calc r.map stripCRLF = r.map id := List.map_congr_left (fun f hf => this f hf)
    _ = r := List.map_id r
  have hfilter : rows.filter (fun r => !(r = header : Bool)) = rows :=
    List.filter_eq_self.mpr (fun r hr => by
      have := hdup r (by simpa using hr)
      simpa using this)
  simp only [normalize, hfilter]
  rw [hid header (by simp)]
  congr 1
  calc rows.map (List.map stripCRLF)
      = rows.map id := List.map_congr_left (fun r hr => hid r (by simp [hr]))
  _ = rows := List.map_id rows

/-! ### Foreign-delimiter fold lemmas -/

/-- Writing a row none of whose cells needs quoting emits exactly the cells
joined by the delimiter. -/
theorem writeRowSep_eq_joinSep (delim : Char) (fs : List String)
    (h : ∀ f ∈ fs, needsQuoting delim f = false) :
    writeRowSep delim fs = joinSepChars delim fs := by
  induction fs with
  | nil => rfl
  | cons f fs ih =>
    simp only [writeRowSep, joinSepChars, writeFieldChars, h f (by simp),
      Bool.false_eq_true, if_false, if_neg]
    rw [ih (fun g hg => h g (by simp [hg]))]

/-- Row serialization agrees with the plain join when no cell needs
quoting. -/
theorem writeRowChars_eq_join (delim : Char) (r : List String)
    (h : ∀ f ∈ r, needsQuoting delim f = false) :
    writeRowChars delim r = joinChars delim r := by
  cases r with
  | nil => rfl
  | cons f fs =>
    simp only [writeRowChars, joinChars, writeFieldChars, h f (by simp),
      Bool.false_eq_true, if_false, if_neg]
    rw [writeRowSep_eq_joinSep delim fs (fun g hg => h g (by simp [hg]))]

/-- Every character of a separator-joined tail is the separator or a cell
character. -/
theorem mem_joinSepChars (sep : Char) (fs : List String) (c : Char)
    (hc : c ∈ joinSepChars sep fs) : c = sep ∨ ∃ f ∈ fs, c ∈ f.data := by
  induction fs with
  | nil => simp [joinSepChars] at hc
  | cons f fs ih =>
    simp only [joinSepChars, List.mem_cons, List.mem_append] at hc
    rcases hc with h | h | h
    · exact Or.inl h
    · exact Or.inr ⟨f, by simp, h⟩
    · rcases ih h with h | ⟨g, hg, hcg⟩
      · exact Or.inl h
      · exact Or.inr ⟨g, by simp [hg], hcg⟩

/-- Every character of a separator-joined row is the separator or a cell
character. -/
theorem mem_joinChars (sep : Char) (r : List String) (c : Char)
    (hc : c ∈ joinChars sep r) : c = sep ∨ ∃ f ∈ r, c ∈ f.data := by
  cases r with
  | nil => simp [joinChars] at hc
  | cons f fs =>
    simp only [joinChars, List.mem_append] at hc
    rcases hc with h | h
    · exact Or.inr ⟨f, by simp, h⟩
    · rcases mem_joinSepChars sep fs c h with h | ⟨g, hg, hcg⟩
      · exact Or.inl h
      · exact Or.inr ⟨g, by simp [hg], hcg⟩

/-! ### Zip truncation lemmas -/

/-- Keys of a zip: the first component list truncated at the length of the
second. -/
theorem map_fst_zip_eq_take {α β : Type} (a : List α) :
    ∀ b : List β, (a.zip b).map Prod.fst = a.take b.length := by
  induction a with
  | nil => intro b; simp
  | cons x xs ih =>
    intro b
    cases b with
    | nil => simp
    | cons y ys => simp [List.zip_cons_cons, ih ys]

/-- Values of a zip: the second component list truncated at the length of
the first. -/
theorem map_snd_zip_eq_take {α β : Type} (a : List α) :
    ∀ b : List β, (a.zip b).map Prod.snd = b.take a.length := by
  induction a with
  | nil => intro b; simp
  | cons x xs ih =>
    intro b
    cases b with
    | nil => simp
    | cons y ys => simp [List.zip_cons_cons, ih ys]

/-- Parsing with the comma delimiter a file written with the semicolon
delimiter folds every line into a single one-field row. -/
theorem parseStep_foreign_fold (rows : List (List String))
    (hclean : ∀ r ∈ rows, ∀ f ∈ r, ∀ c ∈ f.data,
      c ≠ ',' ∧ c ≠ '"' ∧ c ≠ '\n' ∧ c ≠ '\r' ∧ c ≠ ';') :
    parseStep ',' (writeCSVChars ';' rows) .unquoted [] [] =
      rows.map (fun r => [joinRow ';' r]) := by
  induction rows with
  | nil => simp [writeCSVChars, parseStep]
  | cons r rs ih =>
    have hrow : ∀ f ∈ r, needsQuoting ';' f = false := by
      intro f hf
      simp only [needsQuoting, List.any_eq_false, Bool.or_eq_true, decide_eq_true_eq,
        not_or]
      intro c hc
      have h5 := hclean r (by simp) f hf c hc
      tauto
    have hchars : ∀ c ∈ joinChars ';' r, c ≠ '"' ∧ c ≠ ',' ∧ c ≠ '\n' := by
      intro c hc
      rcases mem_joinChars ';' r c hc with h | ⟨f, hf, hcf⟩
      · subst h; refine ⟨by decide, by decide, by decide⟩
      · have h5 := hclean r (by simp) f hf c hcf
        exact ⟨h5.2.1, h5.1, h5.2.2.1⟩
    simp only [writeCSVChars]
    rw [writeRowChars_eq_join ';' r hrow]
    rw [parseStep_run_unquoted ',' (joinChars ';' r) ('\n' :: writeCSVChars ';' rs)
      [] [] hchars]
    have h1 : ('\n' : Char) ≠ '"' := by decide
    have h2 : ('\n' : Char) ≠ ',' := by decide
    simp only [List.nil_append, parseStep, h1, h2, decide_False, Bool.false_and,
      Bool.false_eq_true, if_false, if_neg, decide_True, if_pos]
    rw [ih (fun x hx => hclean x (by simp [hx]))]
    rfl

/-! ## Claim theorems -/

/-- C1: for every record set containing a cell value with an embedded line
terminator, exporting it to CSV quotes that field, and re-reading the
exported text with the same delimiter reconstructs exactly the same record
count, with no spurious extra rows. -/
theorem csv_export_embedded_newline_preserves_count (delim : Char)
    (rows : List (List String)) (r : List String) (f : String)
    (hq : delim ≠ '"') (hn : delim ≠ '\n')
    (hrows : ∀ x ∈ rows, x ≠ [])
    (hr : r ∈ rows) (hf : f ∈ r) (hterm : '\n' ∈ f.data) :
    needsQuoting delim f = true ∧
      (parseCSV delim (writeCSV delim rows)).length = rows.length := by
  constructor
  · simp only [needsQuoting, List.any_eq_true]
    exact ⟨'\n', hterm, by simp⟩
  · rw [parseCSV_writeCSV delim rows hq hn hrows]

/-- Witness for C1 at a concrete record set with an embedded newline. -/
theorem csv_export_embedded_newline_preserves_count_witness :
    needsQuoting ',' "x\ny" = true ∧
      (parseCSV ',' (writeCSV ',' [["a", "x\ny"], ["b", "c"]])).length =
        [["a", "x\ny"], ["b", "c"]].length :=
  csv_export_embedded_newline_preserves_count ',' [["a", "x\ny"], ["b", "c"]]
    ["a", "x\ny"] "x\ny" (by decide) (by decide) (by decide) (by simp) (by simp)
    (by decide)

/-- C2: for every well-formed comma-delimited record set, exporting,
reading, normalizing and exporting again reproduces the original record set
exactly, with the same column order and cell values. -/
theorem csv_read_normalize_export_round_trip (rs : List (List String))
    (h : wellFormedRecordSet rs) :
    parseCSV ',' (writeCSV ',' (normalize (parseCSV ',' (writeCSV ',' rs)))) = rs := by
  have hrows := h.2.1
  have hq : (',' : Char) ≠ '"' := by decide
  have hn : (',' : Char) ≠ '\n' := by decide
  rw [parseCSV_writeCSV ',' rs hq hn hrows, normalize_eq_self rs h,
    parseCSV_writeCSV ',' rs hq hn hrows]

/-- Witness for C2 at a concrete two-row record set. -/
theorem csv_read_normalize_export_round_trip_witness :
    wellFormedRecordSet [["h1", "h2"], ["a", "b"]] ∧
      parseCSV ','
          (writeCSV ',' (normalize (parseCSV ',' (writeCSV ',' [["h1", "h2"], ["a", "b"]])))) =
        [["h1", "h2"], ["a", "b"]] :=
  ⟨by decide, csv_read_normalize_export_round_trip [["h1", "h2"], ["a", "b"]] (by decide)⟩

/-- C3: reading a semicolon-delimited file with the comma delimiter never
fails and deterministically folds each input line into a single column per
row. -/
theorem comma_read_of_semicolon_file_folds_single_column (rows : List (List String))
    (hclean : ∀ r ∈ rows, ∀ f ∈ r, ∀ c ∈ f.data,
      c ≠ ',' ∧ c ≠ '"' ∧ c ≠ '\n' ∧ c ≠ '\r' ∧ c ≠ ';') :
    parseCSV ',' (writeCSV ';' rows) = rows.map (fun r => [joinRow ';' r]) ∧
      (parseCSV ',' (writeCSV ';' rows)).length = rows.length ∧
      ∀ r' ∈ parseCSV ',' (writeCSV ';' rows), r'.length = 1 := by
  have hmain : parseCSV ',' (writeCSV ';' rows) = rows.map (fun r => [joinRow ';' r]) :=
    parseStep_foreign_fold rows hclean
  refine ⟨hmain, by rw [hmain]; simp, ?_⟩
  intro r' hr'
  rw [hmain] at hr'
  obtain ⟨r, _, rfl⟩ := List.mem_map.mp hr'
  rfl

/-- Witness for C3 at a concrete semicolon-delimited record set. -/
theorem comma_read_of_semicolon_file_folds_single_column_witness :
    parseCSV ',' (writeCSV ';' [["a", "b"], ["c", "d"]]) =
        [["a", "b"], ["c", "d"]].map (fun r => [joinRow ';' r]) ∧
      (parseCSV ',' (writeCSV ';' [["a", "b"], ["c", "d"]])).length =
        [["a", "b"], ["c", "d"]].length ∧
      ∀ r' ∈ parseCSV ',' (writeCSV ';' [["a", "b"], ["c", "d"]]), r'.length = 1 :=
  comma_read_of_semicolon_file_folds_single_column [["a", "b"], ["c", "d"]] (by decide)

/-- C4: a paginated read of a multi-page table without whole-document scope
yields exactly one record set per page, and on every page after the first
the row used as that record set's header is a true data row of the original
table, not the header row. -/
theorem per_page_read_misclassifies_continuation_headers
    (p1 : List (List String)) (rest : List (List (List String)))
    (h1 : p1 ≠ []) (hpg : ∀ pg ∈ rest, pg ≠ [])
    (hdata : ∀ r ∈ trueDataRows (p1 :: rest), r ≠ trueHeader (p1 :: rest)) :
    (readPerPage (p1 :: rest)).length = (p1 :: rest).length ∧
      ∀ rs ∈ (readPerPage (p1 :: rest)).tail,
        rs.header ∈ trueDataRows (p1 :: rest) ∧
          rs.header ≠ trueHeader (p1 :: rest) := by
  constructor
  · simp [readPerPage]
  · intro rs hrs
    simp only [readPerPage, List.map_cons, List.tail_cons] at hrs
    obtain ⟨pg, hpgmem, rfl⟩ := List.mem_map.mp hrs
    obtain ⟨h, t, rfl⟩ : ∃ h t, pg = h :: t := by
      cases pg with
      | nil => exact absurd rfl (hpg [] hpgmem)
      | cons h t => exact ⟨h, t, rfl⟩
    obtain ⟨a, p1t, rfl⟩ : ∃ a p1t, p1 = a :: p1t := by
      cases p1 with
      | nil => exact absurd rfl h1
      | cons a p1t => exact ⟨a, p1t, rfl⟩
    have hmem : (h :: t).headD [] ∈ trueDataRows ((a :: p1t) :: rest) := by
      simp only [trueDataRows, List.flatten_cons, List.cons_append, List.tail_cons,
        List.headD_cons]
      exact List.mem_append_right p1t (List.mem_flatten.mpr ⟨h :: t, hpgmem, by simp⟩)
    exact ⟨hmem, hdata _ hmem⟩

/-- Witness for C4 at a concrete two-page table. -/
theorem per_page_read_misclassifies_continuation_headers_witness :
    (readPerPage [[["h1", "h2"], ["a", "b"]], [["c", "d"], ["e", "f"]]]).length =
        [[["h1", "h2"], ["a", "b"]], [["c", "d"], ["e", "f"]]].length ∧
      ∀ rs ∈ (readPerPage [[["h1", "h2"], ["a", "b"]], [["c", "d"], ["e", "f"]]]).tail,
        rs.header ∈ trueDataRows [[["h1", "h2"], ["a", "b"]], [["c", "d"], ["e", "f"]]] ∧
          rs.header ≠ trueHeader [[["h1", "h2"], ["a", "b"]], [["c", "d"], ["e", "f"]]] :=
  per_page_read_misclassifies_continuation_headers [["h1", "h2"], ["a", "b"]]
    [[["c", "d"], ["e", "f"]]] (by decide) (by decide) (by decide)

/-- C5: validate returns true on a document conforming to the schema and
false when the same schema is applied to a document missing a required
element; the boolean is the entire result. -/
theorem validate_returns_boolean_verdict (schema : SchemaDescriptor)
    (good bad : XmlDocument) (t : String) :
    ((∀ u ∈ schema.required, u ∈ good.elements) → validate good schema = true) ∧
      (t ∈ schema.required → t ∉ bad.elements → validate bad schema = false) := by
  constructor
  · intro h
    simp only [validate, conforms, List.all_eq_true, decide_eq_true_eq]
    intro u hu
    simpa using h u hu
  · intro ht hnt
    simp only [validate, conforms, List.all_eq_false]
    exact ⟨t, ht, by simpa using hnt⟩

/-- Witness for C5 at a concrete schema, a conforming document and a
document missing a required element. -/
theorem validate_returns_boolean_verdict_witness :
    validate ⟨["row", "catalogue_id"]⟩ ⟨["row", "catalogue_id"]⟩ = true ∧
      validate ⟨["row"]⟩ ⟨["row", "catalogue_id"]⟩ = false :=
  ⟨(validate_returns_boolean_verdict ⟨["row", "catalogue_id"]⟩ ⟨["row", "catalogue_id"]⟩
      ⟨["row"]⟩ "catalogue_id").1 (by decide),
    (validate_returns_boolean_verdict ⟨["row", "catalogue_id"]⟩ ⟨["row", "catalogue_id"]⟩
      ⟨["row"]⟩ "catalogue_id").2 (by decide) (by decide)⟩

/-- C6 counterexample: the internal-DTD validating parse does not return a
boolean verdict on an invalid document; it raises a parse error, here shown
at a concrete document missing its required element. -/
theorem internal_dtd_parse_errors_on_invalid :
    parseWithInternalDTD ⟨⟨["catalogue_id"]⟩, ⟨[]⟩⟩ =
      Except.error "DTD validation failed" := rfl

/-- C6 as amended: the internal-DTD variant reports validity through the
parse result itself, returning the parsed document on a conforming input
and raising a parse error on a non-conforming one. -/
theorem internal_dtd_parse_success_iff_conforms (d : XmlDocumentWithDTD) :
    (conforms d.doc d.dtd = true → parseWithInternalDTD d = Except.ok d.doc) ∧
      (conforms d.doc d.dtd = false →
        parseWithInternalDTD d = Except.error "DTD validation failed") := by
  constructor
  · intro h; simp [parseWithInternalDTD, h]
  · intro h; simp [parseWithInternalDTD, h]

/-- Witness for the amended C6 at a concrete conforming document. -/
theorem internal_dtd_parse_success_iff_conforms_witness :
    parseWithInternalDTD ⟨⟨["row"]⟩, ⟨["row"]⟩⟩ = Except.ok ⟨["row"]⟩ :=
  (internal_dtd_parse_success_iff_conforms ⟨⟨["row"]⟩, ⟨["row"]⟩⟩).1 (by decide)

/-- C7: DOCX extraction treats the first table row as the header and zips
every subsequent row against it into exactly one record, so a table with R
rows yields exactly R-1 records. -/
theorem docx_table_yields_one_record_per_data_row (table : List (List String))
    (keys : List String) (rest : List (List String)) (h : table = keys :: rest) :
    extractTable table = rest.map (fun row => keys.zip row) ∧
      (extractTable table).length = table.length - 1 := by
  subst h
  exact ⟨rfl, by simp [extractTable]⟩

/-- Witness for C7 at a concrete three-row table. -/
theorem docx_table_yields_one_record_per_data_row_witness :
    extractTable [["k1", "k2"], ["a", "b"], ["c", "d"]] =
        [["a", "b"], ["c", "d"]].map (fun row => (["k1", "k2"]).zip row) ∧
      (extractTable [["k1", "k2"], ["a", "b"], ["c", "d"]]).length =
        [["k1", "k2"], ["a", "b"], ["c", "d"]].length - 1 :=
  docx_table_yields_one_record_per_data_row [["k1", "k2"], ["a", "b"], ["c", "d"]]
    ["k1", "k2"] [["a", "b"], ["c", "d"]] rfl

/-- C8: reading a JSON array of N flat objects with orient records yields
exactly N records, and the column set is exactly the union of the keys
across all input objects. -/
theorem json_records_count_and_columns (objs : List JsonObject) :
    (readJsonRecords objs).records.length = objs.length ∧
      ∀ k : String, k ∈ (readJsonRecords objs).columns ↔
        ∃ o ∈ objs, k ∈ o.map Prod.fst := by
  constructor
  · rfl
  · intro k
    simp [readJsonRecords, List.mem_dedup, List.mem_flatMap]

/-- Witness for C8 at a concrete two-object array with differing keys. -/
theorem json_records_count_and_columns_witness :
    (readJsonRecords [[("a", "1")], [("b", "2")]]).records.length =
        [[("a", "1")], [("b", "2")]].length ∧
      ∀ k : String, k ∈ (readJsonRecords [[("a", "1")], [("b", "2")]]).columns ↔
        ∃ o ∈ [[("a", "1")], [("b", "2")]], k ∈ o.map Prod.fst :=
  json_records_count_and_columns [[("a", "1")], [("b", "2")]]

/-- C9: reading a tabular file of N columns with has_header false labels
the columns 0..N-1 in order and keeps the first physical row as the first
data record. -/
theorem no_header_read_positional_labels (n : Nat) (rs : List (List String))
    (hne : rs ≠ []) (hpos : 0 < n) (hw : ∀ r ∈ rs, r.length = n) :
    (readNoHeader ',' (writeCSV ',' rs)).labels = List.range n ∧
      (readNoHeader ',' (writeCSV ',' rs)).rows = rs := by
  have hrows : ∀ r ∈ rs, r ≠ [] := by
    intro r hr hcon
    rw [hcon] at hr
    have := hw [] hr
    simp at this
    omega
  have hrt : parseCSV ',' (writeCSV ',' rs) = rs :=
    parseCSV_writeCSV ',' rs (by decide) (by decide) hrows
  obtain ⟨r, rs', rfl⟩ : ∃ r rs', rs = r :: rs' := by
    cases rs with
    | nil => exact absurd rfl hne
    | cons r rs' => exact ⟨r, rs', rfl⟩
  constructor
  · show List.range (((parseCSV ',' (writeCSV ',' (r :: rs'))).headD []).length) =
      List.range n
    rw [hrt]
    simp [hw r (by simp)]
  · show parseCSV ',' (writeCSV ',' (r :: rs')) = r :: rs'
    exact hrt

/-- Witness for C9 at a concrete headerless two-column file. -/
theorem no_header_read_positional_labels_witness :
    (readNoHeader ',' (writeCSV ',' [["a", "b"], ["c", "d"]])).labels =
        List.range 2 ∧
      (readNoHeader ',' (writeCSV ',' [["a", "b"], ["c", "d"]])).rows =
        [["a", "b"], ["c", "d"]] :=
  no_header_read_positional_labels 2 [["a", "b"], ["c", "d"]] (by decide) (by decide)
    (by decide)

/-- C10: every record the DOCX extraction produces has its keys among the
header-row cell texts: zipping stops at the shorter sequence, so a longer
data row loses its extra cells and a shorter one loses the trailing header
keys. -/
theorem docx_record_keys_zip_truncation (keys : List String)
    (rest : List (List String)) :
    (∀ rec ∈ extractTable (keys :: rest), rec.map Prod.fst ⊆ keys) ∧
      ∀ row ∈ rest,
        keys.zip row ∈ extractTable (keys :: rest) ∧
          (keys.zip row).map Prod.fst = keys.take row.length ∧
          (keys.zip row).map Prod.snd = row.take keys.length := by
  constructor
  · intro rec hrec
    obtain ⟨row, _, rfl⟩ := List.mem_map.mp hrec
    rw [map_fst_zip_eq_take keys row]
    exact List.take_subset row.length keys
  · intro row hrow
    refine ⟨?_, map_fst_zip_eq_take keys row, map_snd_zip_eq_take keys row⟩
    exact List.mem_map_of_mem (fun r => keys.zip r) hrow

/-- Witness for C10 at a concrete table with one longer and one shorter
data row. -/
theorem docx_record_keys_zip_truncation_witness :
    (∀ rec ∈ extractTable (["k1", "k2"] :: [["a", "b", "extra"], ["c"]]),
        rec.map Prod.fst ⊆ ["k1", "k2"]) ∧
      ∀ row ∈ [["a", "b", "extra"], ["c"]],
        (["k1", "k2"]).zip row ∈
            extractTable (["k1", "k2"] :: [["a", "b", "extra"], ["c"]]) ∧
          ((["k1", "k2"]).zip row).map Prod.fst = (["k1", "k2"]).take row.length ∧
            ((["k1", "k2"]).zip row).map Prod.snd = row.take (["k1", "k2"]).length :=
  docx_record_keys_zip_truncation ["k1", "k2"] [["a", "b", "extra"], ["c"]]

end MRData
